/-
Verification of the tablereader core (src/tablereader): a shallow Lean 4
embedding of clean_nulls, parse_number, the strptime-based temporal parsers,
find_dt_format and parse_iterator from parser.py, and the two table_iterator
row sources from csv.py and xls.py, together with theorems settling the
specification's claims.

Modelling conventions:
- Python str is Lean String (operations defined over the underlying char
  list); str.strip / str.lower are modelled over the ASCII repertoire that
  the program's fixed vocabularies and format strings use.
- Python float(s) is modelled as an exact rational parse (Option Rat); the
  special literals inf/nan and underscore-grouped digits are outside every
  behaviour the claims exercise and are modelled as parse failures.
- Python exceptions are an explicit PyErr value; a generator that raises
  after yielding some rows is a pair (rows emitted so far, optional error).
-/
import Mathlib

set_option maxRecDepth 8000

/-! ## Character and string utilities (Python str.strip / str.lower) -/

/-- The whitespace set of Python's `str.strip` / regex `\s` (ASCII part). -/
def isPySpace (c : Char) : Bool :=
  c == ' ' || c == '\t' || c == '\n' || c == '\r' || c == '\x0b' || c == '\x0c'

/-- Python `str.lower`, per character (ASCII letters; other characters,
including the em/en dashes of the null vocabulary, are unchanged). -/
def lowerChar (c : Char) : Char :=
  match c with
  | 'A' => 'a' | 'B' => 'b' | 'C' => 'c' | 'D' => 'd' | 'E' => 'e'
  | 'F' => 'f' | 'G' => 'g' | 'H' => 'h' | 'I' => 'i' | 'J' => 'j'
  | 'K' => 'k' | 'L' => 'l' | 'M' => 'm' | 'N' => 'n' | 'O' => 'o'
  | 'P' => 'p' | 'Q' => 'q' | 'R' => 'r' | 'S' => 's' | 'T' => 't'
  | 'U' => 'u' | 'V' => 'v' | 'W' => 'w' | 'X' => 'x' | 'Y' => 'y'
  | 'Z' => 'z'
  | c => c

/-- `str.strip()` on the character list: drop leading and trailing whitespace. -/
def stripList (l : List Char) : List Char :=
  ((l.dropWhile isPySpace).reverse.dropWhile isPySpace).reverse

/-- Python `value.strip()`. -/
def pyStrip (s : String) : String := ⟨stripList s.data⟩

/-- Python `value.lower()`. -/
def pyLower (s : String) : String := ⟨s.data.map lowerChar⟩

/-! ## Null normalisation (parser.py, clean_nulls) -/

/-- The NULL_VALUES set literal of clean_nulls (the source lists "nan" twice;
a set literal keeps one copy). -/
def NULL_VALUES : List String :=
  ["", "null", "none", "n/a", "na", "#na", "nan", "-", "--",
   "—", "–", "?", "???", ".", "..", "..."]

/-- parser.py clean_nulls: strip and lower-case the value, return none when
the result is in the null vocabulary, the cleaned string otherwise.  (The
`value is None` guard of the source cannot fire in this pipeline: both row
sources only yield strings.) -/
def clean_nulls (value : String) : Option String :=
  let v := pyLower (pyStrip value)
  if v ∈ NULL_VALUES then none else some v

/-! ## Python errors -/

/-- The Python exceptions reachable in parser.py: row[idx] out of range,
float()/strptime() failure on a malformed value, strptime(value, None) when
format inference found nothing, dict[key] on an absent key. -/
inductive PyErr where
  | indexError
  | valueError
  | typeError
  | keyError
deriving DecidableEq, Repr

/-! ## Number parsing (parser.py, parse_number) -/

/-- Digits to Nat, most significant first. -/
def natOfDigits (l : List Char) : Nat :=
  l.foldl (fun acc c => acc * 10 + (c.toNat - 48)) 0

/-- Model of Python `float(str)` on an already-stripped character list:
optional sign, digits with an optional decimal point, optional exponent.
(inf/nan and underscore separators are modelled as failures; nothing in the
pipeline's claims produces them.) -/
def pyFloatCore (l : List Char) : Option ℚ :=
  let sp : ℚ × List Char :=
    match l with
    | '+' :: r => (1, r)
    | '-' :: r => (-1, r)
    | _ => (1, l)
  let sgn := sp.1
  let l1 := sp.2
  let ip := l1.takeWhile Char.isDigit
  let r1 := l1.dropWhile Char.isDigit
  let fpr : List Char × List Char :=
    match r1 with
    | '.' :: r => (r.takeWhile Char.isDigit, r.dropWhile Char.isDigit)
    | _ => ([], r1)
  let fp := fpr.1
  let r2 := fpr.2
  if ip.isEmpty && fp.isEmpty then none
  else
    let mant : ℚ := (natOfDigits ip : ℚ) + (natOfDigits fp : ℚ) / ((10 : ℚ) ^ fp.length)
    match r2 with
    | [] => some (sgn * mant)
    | e :: r3 =>
      if e == 'e' || e == 'E' then
        let esp : Int × List Char :=
          match r3 with
          | '+' :: r => (1, r)
          | '-' :: r => (-1, r)
          | _ => (1, r3)
        let ed := esp.2.takeWhile Char.isDigit
        let r5 := esp.2.dropWhile Char.isDigit
        if ed.isEmpty || !r5.isEmpty then none
        else some (sgn * mant * (10 : ℚ) ^ (esp.1 * (natOfDigits ed : Int)))
      else none

/-- Python `float(s)` (float() strips surrounding whitespace itself). -/
def pyFloat (s : String) : Option ℚ := pyFloatCore (stripList s.data)

/-- Last-character test, for `value.endswith("%")`. -/
def lastIs (l : List Char) (c : Char) : Bool :=
  match l.getLast? with
  | some x => x == c
  | none => false

/-- parser.py parse_number (with its @with_clean wrapping): null-classify,
remove spaces, detect/strip a trailing percent, drop currency glyphs and
whitespace, apply the decimal-separator locale rule, parse as float, and
scale by 1/100 when the percent flag was set.  A float() failure propagates
(nothing in the source catches it). -/
def parse_number (value : String) (decimal_separator : String) : Except PyErr (Option ℚ) :=
  match clean_nulls value with
  | none => .ok none
  | some v =>
    let v1 : List Char := v.data.filter (fun c => c != ' ')
    let isPct := lastIs v1 '%'
    let v2 : List Char := if isPct then stripList v1.dropLast else v1
    let v3 := v2.filter (fun c =>
      !(c == '€' || c == '$' || c == '£' || c == '¥' || isPySpace c))
    let v4 := if decimal_separator = "," then
        (v3.filter (fun c => c != '.')).map (fun c => if c == ',' then '.' else c)
      else v3.filter (fun c => c != ',')
    match pyFloatCore (stripList v4) with
    | none => .error .valueError
    | some q => .ok (some (if isPct then q / 100 else q))

deriving instance DecidableEq for Except


/-! ## datetime.strptime model

parser.py's parse_date / parse_datetime / parse_time all call
datetime.strptime(value, fmt).  CPython's _strptime compiles the format to a
regular expression: each directive becomes an ordered alternation, runs of
whitespace in the format become `\s+`, literals match case-insensitively;
re.match takes the first match in backtracking (depth-first) order, then
strptime rejects the value if that match did not consume the whole string,
and finally the datetime constructor validates the extracted fields.  The
model below reproduces exactly that: each directive yields an ordered list
of (value, rest) alternatives, the token list is matched depth-first, the
head of the result list plays the role of re.match's chosen match. -/

/-- A datetime.datetime value (microseconds are never produced here). -/
structure DateTime where
  year : Nat
  month : Nat
  day : Nat
  hour : Nat
  minute : Nat
  second : Nat
deriving DecidableEq, Repr

/-- A datetime.date value.  The source never constructs one (strptime always
returns a full datetime); it exists so that spec claims about date-typed
results can be stated. -/
structure DateOnly where
  year : Nat
  month : Nat
  day : Nat
deriving DecidableEq, Repr

/-- Tokens of a strptime format string: a literal character, a whitespace
run (regex `\s+`), or one of the directives used by parser.py's candidate
format lists. -/
inductive FmtTok where
  | lit : Char → FmtTok
  | ws : FmtTok
  | dY : FmtTok
  | dy : FmtTok
  | dm : FmtTok
  | dd : FmtTok
  | dH : FmtTok
  | dI : FmtTok
  | dM : FmtTok
  | dS : FmtTok
  | db : FmtTok
  | dB : FmtTok
  | dp : FmtTok
deriving DecidableEq, Repr

/-- Compile a format string to tokens; none models the ValueError raised for
an unknown directive or a trailing `%`.  Consecutive whitespace collapses to
a single `\s+` token, as in _strptime's pattern construction. -/
def tokenize : List Char → Option (List FmtTok)
  | [] => some []
  | '%' :: rest =>
    match rest with
    | [] => none
    | c :: rest2 =>
      let t? : Option FmtTok :=
        match c with
        | 'Y' => some .dY
        | 'y' => some .dy
        | 'm' => some .dm
        | 'd' => some .dd
        | 'H' => some .dH
        | 'I' => some .dI
        | 'M' => some .dM
        | 'S' => some .dS
        | 'b' => some .db
        | 'B' => some .dB
        | 'p' => some .dp
        | '%' => some (.lit '%')
        | _ => none
      match t? with
      | none => none
      | some t => (tokenize rest2).map (fun ts => t :: ts)
  | c :: rest =>
    (tokenize rest).map (fun ts =>
      if isPySpace c then
        match ts with
        | .ws :: _ => ts
        | _ => .ws :: ts
      else .lit c :: ts)

/-- Fields captured while matching (defaults mirror _strptime: year 1900,
month 1, day 1, time 00:00:00). -/
structure StState where
  y : Option Nat := none
  yy : Option Nat := none
  m : Option Nat := none
  d : Option Nat := none
  hh : Option Nat := none
  ii : Option Nat := none
  mi : Option Nat := none
  ss : Option Nat := none
  ap : Option Bool := none
deriving DecidableEq, Repr

/-- Exactly k digits from the front of l, as a number. -/
def exactDigits (k : Nat) (l : List Char) : Option (Nat × List Char) :=
  let ds := l.take k
  if ds.length = k && ds.all Char.isDigit then some (natOfDigits ds, l.drop k)
  else none

/-- Ordered alternatives of a two-alternative numeric directive: the
two-digit branch(es) of the regex first (subject to ok2), then the
one-digit branch (subject to ok1). -/
def altNum (ok2 : Nat → Bool) (ok1 : Nat → Bool) (l : List Char) :
    List (Nat × List Char) :=
  (match exactDigits 2 l with
   | some (v, r) => if ok2 v then [(v, r)] else []
   | none => []) ++
  (match exactDigits 1 l with
   | some (v, r) => if ok1 v then [(v, r)] else []
   | none => [])

/-- Exactly k digits as the sole alternative (`%Y` is `\d\d\d\d`, `%y` is
`\d\d` in _strptime: fixed width, no shorter fallback). -/
def altExact (k : Nat) (l : List Char) : List (Nat × List Char) :=
  match exactDigits k l with
  | some p => [p]
  | none => []

/-- `%Y` is `\d\d\d\d`: exactly four digits. -/
def altYear (l : List Char) : List (Nat × List Char) :=
  altExact 4 l

/-- The trailing ` [1-9]` alternative of `%d`: a space-padded single-digit
day (int() later strips the space). -/
def spaceDay (l : List Char) : List (Nat × List Char) :=
  match l with
  | ' ' :: d :: r =>
    if d.isDigit && d != '0' then [(d.toNat - 48, r)] else []
  | _ => []

/-- Case-insensitive prefix match of a word, returning the rest. -/
def matchCI : List Char → List Char → Option (List Char)
  | [], r => some r
  | c :: w, x :: xs => if lowerChar x == lowerChar c then matchCI w xs else none
  | _ :: _, [] => none

/-- C-locale month abbreviations, for `%b`. -/
def MONTH_ABBRS : List String :=
  ["jan", "feb", "mar", "apr", "may", "jun",
   "jul", "aug", "sep", "oct", "nov", "dec"]

/-- C-locale full month names, for `%B` (no name is a prefix of another, so
list order is not observable). -/
def MONTH_NAMES : List String :=
  ["january", "february", "march", "april", "may", "june",
   "july", "august", "september", "october", "november", "december"]

/-- Month-name alternatives: each name that matches, with month number. -/
def monthAlts (names : List String) (l : List Char) : List (Nat × List Char) :=
  names.enum.filterMap (fun p => (matchCI p.2.data l).map (fun r => (p.1 + 1, r)))

/-- `%p` alternatives: am (false) / pm (true), case-insensitive. -/
def ampmAlts (l : List Char) : List (Bool × List Char) :=
  (match matchCI ['a', 'm'] l with
   | some r => [(false, r)]
   | none => []) ++
  (match matchCI ['p', 'm'] l with
   | some r => [(true, r)]
   | none => [])

/-- `\s+` alternatives: one or more whitespace characters, greedy order. -/
def wsAlts (l : List Char) : List (List Char) :=
  let n := (l.takeWhile isPySpace).length
  (List.range n).map (fun i => l.drop (n - i))

/-- Ordered alternatives of one token, mirroring the per-directive regexes
of _strptime (for example `%d` is `3[01]|[12]\d|0[1-9]|[1-9]| [1-9]`: any
two-digit 01..31, then a single digit 1..9, then a space-padded digit;
`%Y` and `%y` are fixed-width `\d\d\d\d` and `\d\d`). -/
def applyTok (t : FmtTok) (st : StState) (l : List Char) :
    List (StState × List Char) :=
  match t with
  | .lit c =>
    match l with
    | [] => []
    | x :: xs => if lowerChar x == lowerChar c then [(st, xs)] else []
  | .ws => (wsAlts l).map (fun r => (st, r))
  | .dY => (altYear l).map (fun p => ({ st with y := some p.1 }, p.2))
  | .dy => (altExact 2 l).map
      (fun p => ({ st with yy := some p.1 }, p.2))
  | .dm => (altNum (fun v => 1 ≤ v && v ≤ 12) (fun v => 1 ≤ v && v ≤ 9) l).map
      (fun p => ({ st with m := some p.1 }, p.2))
  | .dd => (altNum (fun v => 1 ≤ v && v ≤ 31) (fun v => 1 ≤ v && v ≤ 9) l
        ++ spaceDay l).map
      (fun p => ({ st with d := some p.1 }, p.2))
  | .dH => (altNum (fun v => v ≤ 23) (fun _ => true) l).map
      (fun p => ({ st with hh := some p.1 }, p.2))
  | .dI => (altNum (fun v => 1 ≤ v && v ≤ 12) (fun v => 1 ≤ v && v ≤ 9) l).map
      (fun p => ({ st with ii := some p.1 }, p.2))
  | .dM => (altNum (fun v => v ≤ 59) (fun _ => true) l).map
      (fun p => ({ st with mi := some p.1 }, p.2))
  | .dS => (altNum (fun v => v ≤ 61) (fun _ => true) l).map
      (fun p => ({ st with ss := some p.1 }, p.2))
  | .db => (monthAlts MONTH_ABBRS l).map
      (fun p => ({ st with m := some p.1 }, p.2))
  | .dB => (monthAlts MONTH_NAMES l).map
      (fun p => ({ st with m := some p.1 }, p.2))
  | .dp => (ampmAlts l).map (fun p => ({ st with ap := some p.1 }, p.2))

/-- Depth-first match of a token sequence; the resulting list is in regex
backtracking order, so its head is the match re.match would report. -/
def matchToks : List FmtTok → StState → List Char → List (StState × List Char)
  | [], st, l => [(st, l)]
  | t :: ts, st, l =>
    (applyTok t st l).flatMap (fun p => matchToks ts p.1 p.2)

def isLeap (y : Nat) : Bool := (y % 4 == 0 && y % 100 != 0) || y % 400 == 0

def daysInMonth (y m : Nat) : Nat :=
  if m == 2 then (if isLeap y then 29 else 28)
  else if m == 4 || m == 6 || m == 9 || m == 11 then 30
  else 31

/-- Assemble and validate the datetime from captured fields, mirroring
_strptime's defaults, its %y century rule, its %I/%p hour computation, and
the datetime constructor's range checks (which reject day-out-of-month and
the leap seconds 60/61 that the %S regex admits). -/
def buildDateTime (st : StState) : Option DateTime :=
  let year : Nat :=
    match st.y with
    | some v => v
    | none =>
      match st.yy with
      | some v => if v ≤ 68 then 2000 + v else 1900 + v
      | none => 1900
  let month := st.m.getD 1
  let day := st.d.getD 1
  let hour : Nat :=
    match st.hh with
    | some h => h
    | none =>
      match st.ii with
      | some h =>
        match st.ap with
        | some true => if h != 12 then h + 12 else 12
        | _ => if h == 12 then 0 else h
      | none => 0
  let minute := st.mi.getD 0
  let second := st.ss.getD 0
  if 1 ≤ year && year ≤ 9999 && 1 ≤ month && month ≤ 12 &&
     1 ≤ day && day ≤ daysInMonth year month &&
     hour ≤ 23 && minute ≤ 59 && second ≤ 59 then
    some ⟨year, month, day, hour, minute, second⟩
  else none

/-- datetime.strptime(value, fmt): none models ValueError (bad directive, no
match, unconverted data remaining, or constructor range failure). -/
def strptime (value fmt : String) : Option DateTime :=
  match tokenize fmt.data with
  | none => none
  | some toks =>
    match matchToks toks {} value.data with
    | [] => none
    | (st, rest) :: _ => if rest.isEmpty then buildDateTime st else none

/-! ## Temporal parsers (parser.py, parse_date / parse_datetime / parse_time) -/

/-- parser.py parse_date with its @with_clean wrapping.  The format argument
is Option String because parse_iterator passes formats[col["name"]], which
is None when inference failed; strptime(value, None) is a TypeError, but the
null short-circuit of @with_clean fires first on null cells. -/
def parse_date (value : String) (fmt : Option String) : Except PyErr (Option DateTime) :=
  match clean_nulls value with
  | none => .ok none
  | some v =>
    match fmt with
    | none => .error .typeError
    | some f =>
      match strptime v f with
      | none => .error .valueError
      | some dt => .ok (some dt)

/-- parser.py parse_datetime: same body as parse_date (both are
with_clean(datetime.strptime)). -/
def parse_datetime : String → Option String → Except PyErr (Option DateTime) :=
  parse_date

/-- parser.py parse_time: same body as parse_date. -/
def parse_time : String → Option String → Except PyErr (Option DateTime) :=
  parse_date

/-! ## Format inference (parser.py, find_dt_format) -/

/-- One sample value succeeds under one format: parse_date returns without
raising (null values return None, hence succeed under every format). -/
def format_ok (value fmt : String) : Bool :=
  match parse_date value (some fmt) with
  | .ok _ => true
  | .error _ => false

/-- parser.py find_dt_format: first format under which every sample value
parses (the source's inner for/else loop), or None. -/
def find_dt_format (sample : List String) (formats : List String) : Option String :=
  formats.find? (fun fmt => sample.all (fun v => format_ok v fmt))

/-- The date candidate list of parse_iterator. -/
def DATE_FORMATS : List String :=
  ["%Y-%m-%d", "%Y/%m/%d", "%m/%d/%Y", "%m/%d/%y", "%d/%m/%Y", "%d/%m/%y",
   "%d.%m.%Y", "%d.%m.%y", "%b %d, %Y", "%B %d, %Y", "%d %b %Y", "%d %B %Y"]

/-- The datetime candidate list of parse_iterator. -/
def DATETIME_FORMATS : List String :=
  ["%Y-%m-%d %H:%M:%S", "%Y-%m-%d %H:%M", "%m/%d/%Y %H:%M:%S",
   "%m/%d/%Y %I:%M:%S %p", "%m/%d/%Y %I:%M %p", "%d/%m/%Y %H:%M:%S",
   "%d/%m/%Y %H:%M"]

/-- The time candidate list of parse_iterator. -/
def TIME_FORMATS : List String :=
  ["%H:%M:%S", "%H:%M", "%I:%M:%S %p", "%I:%M %p"]

/-- The candidate list parse_iterator uses for a temporal column type. -/
def fmtsFor (t : String) : List String :=
  if t = "date" then DATE_FORMATS
  else if t = "datetime" then DATETIME_FORMATS
  else TIME_FORMATS

/-! ## Typed row assembler (parser.py, parse_iterator) -/

/-- A column declaration (parser.py HeaderColumn).  The type field is a
plain string: the TypedDict's Literal annotation is not enforced at runtime,
and parse_iterator dispatches on string equality with an implicit
fall-through to the str branch. -/
structure HeaderColumn where
  name : String
  type : String
  decimal_separator : String
deriving DecidableEq, Repr

/-- A parsed cell value: Python None, str, float (exact rational model),
datetime.datetime, or datetime.date (the last is never produced by the
code; see DateOnly). -/
inductive Value where
  | vNull : Value
  | vStr : String → Value
  | vNum : ℚ → Value
  | vDt : DateTime → Value
  | vDate : DateOnly → Value
deriving DecidableEq, Repr

/-- A TypedRow: the row_as_dict built by parse_iterator, as an ordered
association list with Python-dict insert-or-overwrite semantics. -/
abbrev TypedRow : Type := List (String × Value)

/-- Python dict assignment d[k] = v: overwrite in place, else append. -/
def dictSet {α : Type} (d : List (String × α)) (k : String) (v : α) :
    List (String × α) :=
  if d.any (fun kv => kv.1 = k) then
    d.map (fun kv => if kv.1 = k then (k, v) else kv)
  else d ++ [(k, v)]

/-- Python dict lookup d[k] (none models KeyError). -/
def dictGet {α : Type} (d : List (String × α)) (k : String) : Option α :=
  (d.find? (fun kv => kv.1 = k)).map (fun kv => kv.2)

/-- row[idx]: none is an IndexError. -/
def getCell (row : List String) (i : Nat) : Except PyErr String :=
  match row.get? i with
  | some c => .ok c
  | none => .error .indexError

/-- parser.py get_sample_rows: returns the first 100 rows.  Its
for/enumerate/break loop, however, CONSUMES one more row from the shared
iterator when the source has more than 100 rows: on the iteration with
idx = 100 the row has already been pulled from the generator before the
break discards it.  The returned sample is rows.take 100; what the loop
leaves of the iterator is sampleRest below. -/
def get_sample_rows (rows : List (List String)) : List (List String) :=
  rows.take 100

/-- The iterator state after get_sample_rows: positioned at row index 101.
Row index 100 (when present) was consumed by the sampling loop's final
iteration and silently lost — chain(sample, iterator) resumes at 101. -/
def sampleRest (rows : List (List String)) : List (List String) :=
  rows.drop 101

/-- `[row[idx] for row in sample]`, raising IndexError on a short row. -/
def extractCol (sample : List (List String)) (i : Nat) :
    Except PyErr (List String) :=
  match sample with
  | [] => .ok []
  | r :: rs =>
    match getCell r i with
    | .error e => .error e
    | .ok c =>
      match extractCol rs i with
      | .error e => .error e
      | .ok cs => .ok (c :: cs)

/-- The format-inference loop of parse_iterator: for each column (in order)
extract its sample values (this happens for every column, before the type
test), and for date/datetime/time columns record
(name, find_dt_format(sample, candidates)).  The resulting pairs are folded
into the formats dict afterwards. -/
def inferPairs (sample : List (List String)) :
    Nat → List HeaderColumn → Except PyErr (List (String × Option String))
  | _, [] => .ok []
  | i, col :: cols =>
    match extractCol sample i with
    | .error e => .error e
    | .ok colSample =>
      match inferPairs sample (i + 1) cols with
      | .error e => .error e
      | .ok rest =>
        if col.type = "date" ∨ col.type = "datetime" ∨ col.type = "time" then
          .ok ((col.name, find_dt_format colSample (fmtsFor col.type)) :: rest)
        else
          .ok rest

/-- Wrap an Option DateTime result (null or datetime) as a Value. -/
def optDt : Option DateTime → Value
  | none => .vNull
  | some d => .vDt d

/-- Wrap an Option Rat result (null or float) as a Value. -/
def optNum : Option ℚ → Value
  | none => .vNull
  | some q => .vNum q

/-- One cell through parse_iterator's per-column dispatch: temporal types
look up formats[col["name"]] (KeyError if absent) and call the matching
parser; "number" calls parse_number with the column's decimal separator;
every other type string falls through to the raw-cell branch. -/
def cellValue (formats : List (String × Option String)) (col : HeaderColumn)
    (cell : String) : Except PyErr Value :=
  if col.type = "date" then
    match dictGet formats col.name with
    | none => .error .keyError
    | some fmt => (parse_date cell fmt).map optDt
  else if col.type = "datetime" then
    match dictGet formats col.name with
    | none => .error .keyError
    | some fmt => (parse_datetime cell fmt).map optDt
  else if col.type = "time" then
    match dictGet formats col.name with
    | none => .error .keyError
    | some fmt => (parse_time cell fmt).map optDt
  else if col.type = "number" then
    (parse_number cell col.decimal_separator).map optNum
  else .ok (.vStr cell)

/-- The inner loop of parse_iterator's row conversion: fetch row[idx] and
parse it, column by column, stopping at the first exception. -/
def mapPairs (formats : List (String × Option String)) (row : List String) :
    Nat → List HeaderColumn → Except PyErr (List (String × Value))
  | _, [] => .ok []
  | i, col :: cols =>
    match getCell row i with
    | .error e => .error e
    | .ok cell =>
      match cellValue formats col cell with
      | .error e => .error e
      | .ok v =>
        match mapPairs formats row (i + 1) cols with
        | .error e => .error e
        | .ok rest => .ok ((col.name, v) :: rest)

/-- Build row_as_dict for one raw row. -/
def buildRow (formats : List (String × Option String))
    (header : List HeaderColumn) (row : List String) : Except PyErr TypedRow :=
  (mapPairs formats row 0 header).map
    (fun prs => prs.foldl (fun d kv => dictSet d kv.1 kv.2) [])

/-- Emit typed rows until the source is exhausted or a row raises: the pair
is (rows yielded so far, the exception that ended the generator, if any). -/
def emitRows (formats : List (String × Option String))
    (header : List HeaderColumn) :
    List (List String) → List TypedRow × Option PyErr
  | [] => ([], none)
  | r :: rs =>
    match buildRow formats header r with
    | .error e => ([], some e)
    | .ok tr =>
      (tr :: (emitRows formats header rs).1, (emitRows formats header rs).2)

/-- parser.py parse_iterator over a finite row source: buffer the first 100
rows, infer one format per temporal column from that sample, then emit the
sample followed by what remains of the iterator (itertools.chain) as typed
rows.  Because get_sample_rows consumed and discarded row index 100, the
stream is take 100 ++ drop 101 — for sources over 100 rows the 101st row is
silently lost.  An exception anywhere is the second component; rows already
yielded stay. -/
def parse_iterator (rows : List (List String)) (header : List HeaderColumn) :
    List TypedRow × Option PyErr :=
  match inferPairs (get_sample_rows rows) 0 header with
  | .error e => ([], some e)
  | .ok pairs =>
    emitRows (pairs.foldl (fun d kv => dictSet d kv.1 kv.2) []) header
      (get_sample_rows rows ++ sampleRest rows)

/-! ## Row sources (csv.py and xls.py, table_iterator) -/

/-- Python row[start_col : end_col + 1] (a slice clamps, never raises). -/
def pySlice (row : List String) (start_col end_col : Nat) : List String :=
  (row.drop start_col).take (end_col + 1 - start_col)

/-- The enumerate/filter loop of csv.py's table_iterator: absolute row index
i, skip outside [data_start_row, data_end_row] and inside skip_rows, yield
the column slice.  The csv source is modelled as the list of already-decoded
string rows the csv.reader would produce. -/
def csvGo (data_start_row data_end_row start_col end_col : Nat)
    (skip_rows : List Nat) : Nat → List (List String) → List (List String)
  | _, [] => []
  | i, r :: rs =>
    if i < data_start_row ∨ data_end_row < i then
      csvGo data_start_row data_end_row start_col end_col skip_rows (i + 1) rs
    else if i ∈ skip_rows then
      csvGo data_start_row data_end_row start_col end_col skip_rows (i + 1) rs
    else
      pySlice r start_col end_col ::
        csvGo data_start_row data_end_row start_col end_col skip_rows (i + 1) rs

/-- csv.py table_iterator. -/
def csv.table_iterator (data_start_row data_end_row start_col end_col : Nat)
    (skip_rows : List Nat) (src : List (List String)) : List (List String) :=
  csvGo data_start_row data_end_row start_col end_col skip_rows 0 src

/-- One worksheet row through xls.py's normalisation: openpyxl's iter_rows
with min_col/max_col always yields end_col - start_col + 1 cells (EmptyCell,
value None, beyond the stored width), and each value is str()-ed and
stripped; a None value becomes the empty string.  The sheet is modelled as
rows of already-stringified cell values, with absent cells supplying "". -/
def xlsNormRow (start_col end_col : Nat) (row : List String) : List String :=
  (List.range (end_col + 1 - start_col)).map
    (fun c => pyStrip ((row.get? (start_col + c)).getD ""))

/-- The skip/yield loop of xls.py's table_iterator.  Its row_idx comes from
enumerate() over iter_rows(min_row = data_start_row + 1, ...), so it counts
from 0 at data_start_row — it is a RELATIVE offset, unlike the absolute
index used by the csv variant. -/
def xlsGo (start_col end_col : Nat) (skip_rows : List Nat) :
    Nat → List (List String) → List (List String)
  | _, [] => []
  | j, r :: rs =>
    if j ∈ skip_rows then xlsGo start_col end_col skip_rows (j + 1) rs
    else xlsNormRow start_col end_col r :: xlsGo start_col end_col skip_rows (j + 1) rs

/-- xls.py table_iterator: iter_rows bounded to the requested rectangle
(rows past the end of the sheet are simply not yielded), then the
enumerate/skip loop. -/
def xls.table_iterator (data_start_row data_end_row start_col end_col : Nat)
    (skip_rows : List Nat) (src : List (List String)) : List (List String) :=
  xlsGo start_col end_col skip_rows 0
    ((src.drop data_start_row).take (data_end_row + 1 - data_start_row))

/-! ## Lemmas: string normalisation (for claim C10) -/

theorem dropWhile_self_idem {α : Type} (p : α → Bool) (l : List α) :
    (l.dropWhile p).dropWhile p = l.dropWhile p := by
  induction l with
  | nil => rfl
  | cons a t ih =>
    by_cases h : p a = true
    · simp [List.dropWhile_cons, h, ih]
    · simp [List.dropWhile_cons, h]

theorem length_dropWhile_le' {α : Type} (p : α → Bool) (l : List α) :
    (l.dropWhile p).length ≤ l.length := by
  induction l with
  | nil => simp
  | cons a t ih =>
    by_cases h : p a = true
    · rw [List.dropWhile_cons, if_pos h]
      exact Nat.le_succ_of_le ih
    · rw [List.dropWhile_cons, if_neg h]

theorem dropWhile_of_append {α : Type} (p : α → Bool) (l₁ l₂ : List α)
    (h : (l₁ ++ l₂).dropWhile p = l₁ ++ l₂) : l₁.dropWhile p = l₁ := by
  cases l₁ with
  | nil => rfl
  | cons a t =>
    by_cases ha : p a = true
    · exfalso
      rw [List.cons_append, List.dropWhile_cons, if_pos ha] at h
      have hle := length_dropWhile_le' p (t ++ l₂)
      rw [h] at hle
      simp at hle
    · simp [List.dropWhile_cons, ha]

theorem stripList_prefix (l : List Char) :
    ∃ l₂, l.dropWhile isPySpace = stripList l ++ l₂ := by
  refine ⟨(((l.dropWhile isPySpace).reverse.takeWhile isPySpace)).reverse, ?_⟩
  unfold stripList
  have h := List.takeWhile_append_dropWhile (p := isPySpace)
    (l := (l.dropWhile isPySpace).reverse)
  calc l.dropWhile isPySpace
      = (l.dropWhile isPySpace).reverse.reverse := by rw [List.reverse_reverse]
    _ = ((l.dropWhile isPySpace).reverse.takeWhile isPySpace ++
          (l.dropWhile isPySpace).reverse.dropWhile isPySpace).reverse := by rw [h]
    _ = _ := by rw [List.reverse_append]

theorem stripList_no_lead (l : List Char) :
    (stripList l).dropWhile isPySpace = stripList l := by
  obtain ⟨l₂, h⟩ := stripList_prefix l
  have hfix : (l.dropWhile isPySpace).dropWhile isPySpace = l.dropWhile isPySpace :=
    dropWhile_self_idem _ _
  rw [h] at hfix
  exact dropWhile_of_append _ _ _ hfix

theorem stripList_idem (l : List Char) : stripList (stripList l) = stripList l := by
  have h1 : stripList (stripList l) =
      (((stripList l).dropWhile isPySpace).reverse.dropWhile isPySpace).reverse := rfl
  rw [stripList_no_lead l] at h1
  have e : (stripList l).reverse = (l.dropWhile isPySpace).reverse.dropWhile isPySpace := by
    unfold stripList
    rw [List.reverse_reverse]
  rw [e, dropWhile_self_idem, ← e, List.reverse_reverse] at h1
  exact h1

theorem lowerChar_cases (c : Char) :
    lowerChar c = c ∨
      (lowerChar c ∈ ['a', 'b', 'c', 'd', 'e', 'f', 'g', 'h', 'i', 'j', 'k', 'l',
        'm', 'n', 'o', 'p', 'q', 'r', 's', 't', 'u', 'v', 'w', 'x', 'y', 'z'] ∧
       isPySpace c = false) := by
  unfold lowerChar
  split <;> first | (left; rfl) | (right; exact ⟨by decide, by decide⟩)

theorem lowerChar_idem (c : Char) : lowerChar (lowerChar c) = lowerChar c := by
  rcases lowerChar_cases c with h | h
  · rw [h, h]
  · have hall : ∀ x ∈ ['a', 'b', 'c', 'd', 'e', 'f', 'g', 'h', 'i', 'j', 'k', 'l',
        'm', 'n', 'o', 'p', 'q', 'r', 's', 't', 'u', 'v', 'w', 'x', 'y', 'z'],
        lowerChar x = x := by decide
    exact hall _ h.1

theorem isPySpace_lowerChar (c : Char) : isPySpace (lowerChar c) = isPySpace c := by
  rcases lowerChar_cases c with h | h
  · rw [h]
  · have hall : ∀ x ∈ ['a', 'b', 'c', 'd', 'e', 'f', 'g', 'h', 'i', 'j', 'k', 'l',
        'm', 'n', 'o', 'p', 'q', 'r', 's', 't', 'u', 'v', 'w', 'x', 'y', 'z'],
        isPySpace x = false := by decide
    rw [hall _ h.1, h.2]

theorem dropWhile_map_lower (l : List Char) :
    (l.map lowerChar).dropWhile isPySpace = (l.dropWhile isPySpace).map lowerChar := by
  induction l with
  | nil => rfl
  | cons a t ih =>
    by_cases h : isPySpace a = true
    · simp [List.dropWhile_cons, h, isPySpace_lowerChar, ih]
    · simp [List.dropWhile_cons, h, isPySpace_lowerChar]

theorem stripList_map_lower (l : List Char) :
    stripList (l.map lowerChar) = (stripList l).map lowerChar := by
  unfold stripList
  rw [dropWhile_map_lower, ← List.map_reverse, dropWhile_map_lower, ← List.map_reverse]

theorem map_lower_idem (l : List Char) :
    (l.map lowerChar).map lowerChar = l.map lowerChar := by
  induction l with
  | nil => rfl
  | cons a t ih => simp [lowerChar_idem, ih]

theorem normalize_fix (s : String) :
    pyLower (pyStrip (pyLower (pyStrip s))) = pyLower (pyStrip s) := by
  show (⟨(stripList ((stripList s.data).map lowerChar)).map lowerChar⟩ : String) = _
  rw [stripList_map_lower, stripList_idem, map_lower_idem]
  rfl

/-! ## Lemmas: format inference -/

theorem format_ok_null (v f : String) (h : clean_nulls v = none) :
    format_ok v f = true := by
  simp [format_ok, parse_date, h]

theorem find_dt_format_none_iff (sample formats : List String) :
    find_dt_format sample formats = none ↔
      ∀ f ∈ formats, ∃ v ∈ sample, format_ok v f = false := by
  induction formats with
  | nil => simp [find_dt_format]
  | cons g gs ih =>
    by_cases hg : (sample.all fun v => format_ok v g) = true
    · rw [find_dt_format, List.find?_cons_of_pos (p := fun fmt => sample.all fun v => format_ok v fmt) _ hg]
      constructor
      · intro hc; cases hc
      · intro hall
        obtain ⟨v, hv, hfalse⟩ := hall g (List.mem_cons_self g gs)
        have htrue := (List.all_eq_true.mp hg) v hv
        rw [hfalse] at htrue; cases htrue
    · rw [find_dt_format, List.find?_cons_of_neg (p := fun fmt => sample.all fun v => format_ok v fmt) _ hg]
      rw [show (List.find? (fun fmt => sample.all fun v => format_ok v fmt) gs) =
        find_dt_format sample gs from rfl, ih]
      constructor
      · intro hgs f hf
        rcases List.mem_cons.mp hf with rfl | hf'
        · simp only [List.all_eq_true, not_forall] at hg
          obtain ⟨v, hv, hnot⟩ := hg
          exact ⟨v, hv, by simpa using hnot⟩
        · exact hgs f hf'
      · intro hall f hf
        exact hall f (List.mem_cons_of_mem _ hf)

/-- Claim C10: null classification is vocabulary-exact and idempotent: a
string whose stripped lower-cased form is in NULL_VALUES cleans to the null
signal; any other string cleans to its stripped lower-cased form, and
cleaning that output again returns it unchanged. -/
theorem c10_clean_nulls_spec (s : String) :
    (pyLower (pyStrip s) ∈ NULL_VALUES → clean_nulls s = none) ∧
    (pyLower (pyStrip s) ∉ NULL_VALUES →
        clean_nulls s = some (pyLower (pyStrip s))) ∧
    (∀ t, clean_nulls s = some t → clean_nulls t = some t) := by
  refine ⟨fun h => ?_, fun h => ?_, fun t h => ?_⟩
  · simp only [clean_nulls, if_pos h]
  · simp only [clean_nulls, if_neg h]
  · simp only [clean_nulls] at h ⊢
    by_cases hv : pyLower (pyStrip s) ∈ NULL_VALUES
    · rw [if_pos hv] at h; cases h
    · rw [if_neg hv] at h
      injection h with h'
      subst h'
      rw [normalize_fix, if_neg hv]

/-- Witness for C10 at concrete inputs. -/
theorem c10_clean_nulls_witness :
    clean_nulls " N/A " = none ∧ clean_nulls "Abc" = some "abc" ∧
      clean_nulls "abc" = some "abc" :=
  ⟨(c10_clean_nulls_spec " N/A ").1 (by decide),
   (c10_clean_nulls_spec "Abc").2.1 (by decide),
   (c10_clean_nulls_spec "Abc").2.2 "abc" (by rfl)⟩

/-- Claim C3 (amended): find_dt_format returns the first candidate format
under which every sampled value parses (null-classified values are
compatible with every format), and returns the no-format signal exactly
when no single candidate satisfies the whole sample (which in particular
happens when some value parses under no candidate — but also when values
parse only under different candidates). -/
theorem c3_find_dt_format_spec (sample formats : List String) :
    (find_dt_format sample formats = none ↔
        ∀ f ∈ formats, ∃ v ∈ sample, format_ok v f = false) ∧
    (∀ f, find_dt_format sample formats = some f →
        (∀ v ∈ sample, format_ok v f = true) ∧
        ∃ pre post, formats = pre ++ f :: post ∧
          ∀ g ∈ pre, ∃ v ∈ sample, format_ok v g = false) ∧
    (∀ v f, clean_nulls v = none → format_ok v f = true) := by
  refine ⟨find_dt_format_none_iff sample formats, ?_,
    fun v f h => format_ok_null v f h⟩
  intro f
  induction formats with
  | nil => intro h; cases h
  | cons g gs ih =>
    intro h
    by_cases hg : (sample.all fun v => format_ok v g) = true
    · rw [find_dt_format, List.find?_cons_of_pos (p := fun fmt => sample.all fun v => format_ok v fmt) _ hg] at h
      injection h with h'
      subst h'
      exact ⟨fun v hv => (List.all_eq_true.mp hg) v hv, [], gs, rfl, by simp⟩
    · rw [find_dt_format, List.find?_cons_of_neg (p := fun fmt => sample.all fun v => format_ok v fmt) _ hg] at h
      obtain ⟨hall, pre, post, heq, hpre⟩ := ih h
      refine ⟨hall, g :: pre, post, by rw [List.cons_append, heq], ?_⟩
      intro g' hg'
      rcases List.mem_cons.mp hg' with rfl | h'
      · simp only [List.all_eq_true, not_forall] at hg
        obtain ⟨v, hv, hnot⟩ := hg
        exact ⟨v, hv, by simpa using hnot⟩
      · exact hpre g' h'

/-- Witness for C3 at a concrete sample: on ["2024-02-15"] the inferencer
commits to the first matching candidate, %Y-%m-%d, and that format parses
the whole sample. -/
theorem c3_find_dt_format_witness :
    ∀ v ∈ ["2024-02-15"], format_ok v "%Y-%m-%d" = true :=
  ((c3_find_dt_format_spec ["2024-02-15"] DATE_FORMATS).2.1 "%Y-%m-%d" (by rfl)).1

/-- Counterexample for C3 as stated: the sample ["2024-01-01", "2024/01/01"]
makes find_dt_format return the no-format signal although every sampled
value parses under some candidate (the two values just never agree on one),
refuting "returns the no-format-found signal exactly when some sampled value
parses under no candidate". -/
theorem c3_counterexample :
    find_dt_format ["2024-01-01", "2024/01/01"] DATE_FORMATS = none ∧
    ("%Y-%m-%d" ∈ DATE_FORMATS ∧ format_ok "2024-01-01" "%Y-%m-%d" = true) ∧
    ("%Y/%m/%d" ∈ DATE_FORMATS ∧ format_ok "2024/01/01" "%Y/%m/%d" = true) :=
  ⟨by rfl, ⟨by decide, by rfl⟩, ⟨by decide, by rfl⟩⟩

/-- Claim C5: the three locale round-trips of parse_number. -/
theorem c5_number_round_trip :
    parse_number "$1,234.56" "." = .ok (some (1234.56 : ℚ)) ∧
    parse_number "1.234,56" "," = .ok (some (1234.56 : ℚ)) ∧
    parse_number "25.5%" "." = .ok (some (0.255 : ℚ)) :=
  ⟨by with_unfolding_all rfl, by with_unfolding_all rfl,
   by with_unfolding_all rfl⟩

/-! ## Lemmas: row counts (for claim C1) -/

theorem emitRows_len (f : List (String × Option String)) (h : List HeaderColumn)
    (rows : List (List String)) (hnone : (emitRows f h rows).2 = none) :
    (emitRows f h rows).1.length = rows.length := by
  induction rows with
  | nil => rfl
  | cons r rs ih =>
    cases hb : buildRow f h r with
    | error e =>
      have h2 : (emitRows f h (r :: rs)).2 = some e := by
        simp only [emitRows, hb]
      rw [h2] at hnone; cases hnone
    | ok tr =>
      have he1 : (emitRows f h (r :: rs)).1 = tr :: (emitRows f h rs).1 := by
        simp only [emitRows, hb]
      have he2 : (emitRows f h (r :: rs)).2 = (emitRows f h rs).2 := by
        simp only [emitRows, hb]
      rw [he2] at hnone
      rw [he1, List.length_cons, ih hnone, List.length_cons]

theorem parse_iterator_len (rows : List (List String))
    (header : List HeaderColumn)
    (h : (parse_iterator rows header).2 = none) :
    (parse_iterator rows header).1.length =
      (get_sample_rows rows).length + (sampleRest rows).length := by
  unfold parse_iterator at h ⊢
  cases hi : inferPairs (get_sample_rows rows) 0 header with
  | error e => rw [hi] at h; cases h
  | ok pairs =>
    rw [hi] at h
    have h' : (emitRows (pairs.foldl (fun d kv => dictSet d kv.1 kv.2) []) header
        (get_sample_rows rows ++ sampleRest rows)).2 = none := h
    show (emitRows (pairs.foldl (fun d kv => dictSet d kv.1 kv.2) []) header
        (get_sample_rows rows ++ sampleRest rows)).1.length =
      (get_sample_rows rows).length + (sampleRest rows).length
    rw [emitRows_len _ _ _ h']
    rw [List.length_append]

theorem csvGo_len_in (dsr der sc ec : Nat) :
    ∀ (rs : List (List String)) (i : Nat), dsr ≤ i → der < i + rs.length →
      (csvGo dsr der sc ec [] i rs).length = der + 1 - i := by
  intro rs
  induction rs with
  | nil =>
    intro i h1 h2
    simp only [List.length_nil, Nat.add_zero] at h2
    simp only [csvGo, List.length_nil]
    omega
  | cons r rs ih =>
    intro i h1 h2
    simp only [List.length_cons] at h2
    simp only [csvGo]
    by_cases hlt : i < dsr ∨ der < i
    · rw [if_pos hlt]
      rcases hlt with hx | hx
      · omega
      · rw [ih (i + 1) (by omega) (by omega)]
        omega
    · rw [if_neg hlt]
      push_neg at hlt
      rw [if_neg (List.not_mem_nil i)]
      simp only [List.length_cons]
      rw [ih (i + 1) (by omega) (by omega)]
      omega

theorem csvGo_len (dsr der sc ec : Nat) :
    ∀ (rs : List (List String)) (i : Nat), i ≤ dsr → dsr ≤ der →
      der < i + rs.length →
      (csvGo dsr der sc ec [] i rs).length = der + 1 - dsr := by
  intro rs
  induction rs with
  | nil =>
    intro i h1 h2 h3
    simp only [List.length_nil, Nat.add_zero] at h3
    omega
  | cons r rs ih =>
    intro i h1 h2 h3
    by_cases he : i = dsr
    · subst he
      exact csvGo_len_in _ der sc ec (r :: rs) _ le_rfl h3
    · have hlt : i < dsr := Nat.lt_of_le_of_ne h1 he
      simp only [List.length_cons] at h3
      simp only [csvGo]
      rw [if_pos (Or.inl hlt)]
      exact ih (i + 1) (by omega) h2 (by omega)

theorem xlsGo_len (sc ec : Nat) :
    ∀ (l : List (List String)) (j : Nat), (xlsGo sc ec [] j l).length = l.length := by
  intro l
  induction l with
  | nil => intro j; rfl
  | cons r rs ih =>
    intro j
    simp only [xlsGo]
    rw [if_neg (List.not_mem_nil j)]
    simp only [List.length_cons, ih]

theorem xls_table_len (dsr der sc ec : Nat) (src : List (List String))
    (h1 : dsr ≤ der) (h2 : der < src.length) :
    (xls.table_iterator dsr der sc ec [] src).length = der + 1 - dsr := by
  unfold xls.table_iterator
  rw [xlsGo_len]
  rw [List.length_take, List.length_drop]
  omega

/-- Claim C1 is refuted by the code (code bug): for a range of more than
100 rows, get_sample_rows' for/enumerate/break loop consumes row index 100
from the shared iterator before breaking and discards it, so
chain(sample, iterator) resumes at row 101.  A 150-row range (rows 0..149,
no skips) therefore emits 149 typed rows, not data_end_row -
data_start_row + 1 = 150, under both row-source variants, with no error to
blame for the loss. -/
theorem c1_sample_boundary_row_dropped :
    (parse_iterator (csv.table_iterator 0 149 0 0 [] (List.replicate 150 ["x"]))
        [⟨"c", "str", "."⟩]).1.length = 149 ∧
    (parse_iterator (csv.table_iterator 0 149 0 0 [] (List.replicate 150 ["x"]))
        [⟨"c", "str", "."⟩]).2 = none ∧
    (parse_iterator (xls.table_iterator 0 149 0 0 [] (List.replicate 150 ["x"]))
        [⟨"c", "str", "."⟩]).1.length = 149 ∧
    (parse_iterator (xls.table_iterator 0 149 0 0 [] (List.replicate 150 ["x"]))
        [⟨"c", "str", "."⟩]).2 = none ∧
    (149 : Nat) ≠ 149 - 0 + 1 :=
  ⟨by rfl, by rfl, by rfl, by rfl, by decide⟩

/-- Claim C2 is settled against the code at a concrete input: same source
(rows 0..3), same spec (rows 1..3, skip_rows = [2]), but the two variants
yield different rows — csv skips absolute row 2, xls skips relative offset
2, i.e. absolute row 3. -/
theorem c2_skip_rows_divergence :
    csv.table_iterator 1 3 0 0 [2] [["r0"], ["r1"], ["r2"], ["r3"]]
        = [["r1"], ["r3"]] ∧
    xls.table_iterator 1 3 0 0 [2] [["r0"], ["r1"], ["r2"], ["r3"]]
        = [["r1"], ["r2"]] ∧
    ([["r1"], ["r3"]] : List (List String)) ≠ [["r1"], ["r2"]] :=
  ⟨by rfl, by rfl, by decide⟩

/-- Claim C6 (amended): end-to-end scenario A emits Date as the midnight
datetime datetime(2023,12,10,0,0,0) — parse_date returns datetime.strptime's
datetime object, never a calendar date — with Product's casing preserved and
Amount parsed to 100.12. -/
theorem c6_scenario_a :
    parse_iterator [["2023-12-10", "iPhone 4", "100.12"]]
      [⟨"Date", "date", "."⟩, ⟨"Product", "str", "."⟩, ⟨"Amount", "number", "."⟩] =
    ([[("Date", Value.vDt ⟨2023, 12, 10, 0, 0, 0⟩),
       ("Product", Value.vStr "iPhone 4"),
       ("Amount", Value.vNum (100.12 : ℚ))]], none) := by
  with_unfolding_all rfl

/-- Counterexample for C6 as stated: the emitted Date value is the datetime
object datetime(2023,12,10,0,0,0), not the date object date(2023,12,10) the
claim demands. -/
theorem c6_counterexample :
    dictGet ((parse_iterator [["2023-12-10", "iPhone 4", "100.12"]]
        [⟨"Date", "date", "."⟩, ⟨"Product", "str", "."⟩,
         ⟨"Amount", "number", "."⟩]).1.headD []) "Date"
      = some (Value.vDt ⟨2023, 12, 10, 0, 0, 0⟩) ∧
    Value.vDt ⟨2023, 12, 10, 0, 0, 0⟩ ≠ Value.vDate ⟨2023, 12, 10⟩ :=
  ⟨by with_unfolding_all rfl, fun h => Value.noConfusion h⟩

/-- Claim C7 (amended): a str-typed cell is passed through verbatim — no
null detection, no trimming, no lower-casing; the original string (casing
included) is the final value even for null-vocabulary strings. -/
theorem c7_str_passthrough (s : String) :
    parse_iterator [[s]] [⟨"P", "str", "."⟩] = ([[("P", Value.vStr s)]], none) := by
  rfl

/-- Counterexample for C7 as stated: the null-vocabulary cell "N/A" in a str
column is emitted as the string "N/A", not as the null value. -/
theorem c7_counterexample :
    parse_iterator [["N/A"]] [⟨"P", "str", "."⟩]
        = ([[("P", Value.vStr "N/A")]], none) ∧
    clean_nulls "N/A" = none ∧
    Value.vStr "N/A" ≠ Value.vNull :=
  ⟨by rfl, by rfl, fun h => Value.noConfusion h⟩

/-- Counterexample for C8 as stated: a one-cell row under a two-column
header makes the extraction raise IndexError and emit nothing, instead of
padding the missing cell with the empty string and producing a TypedRow. -/
theorem c8_counterexample :
    (["a"] : List String).length <
        ([⟨"P", "str", "."⟩, ⟨"Q", "str", "."⟩] : List HeaderColumn).length ∧
    parse_iterator [["a"]] [⟨"P", "str", "."⟩, ⟨"Q", "str", "."⟩]
        = ([], some PyErr.indexError) :=
  ⟨by decide, by rfl⟩

/-! ## Lemmas: sample extraction and inference errors (claims C4, C8) -/

theorem getCell_err (row : List String) (i : Nat) (e : PyErr)
    (h : getCell row i = .error e) : e = .indexError := by
  unfold getCell at h
  cases hg : row.get? i <;> rw [hg] at h
  · injection h with h'
    exact h'.symm
  · cases h

theorem getCell_ok_lt (row : List String) (i : Nat) (c : String)
    (h : getCell row i = .ok c) : i < row.length := by
  unfold getCell at h
  cases hg : row.get? i <;> rw [hg] at h
  · cases h
  · exact (List.get?_eq_some.mp hg).1

theorem getCell_of_le (row : List String) (i : Nat) (h : row.length ≤ i) :
    getCell row i = .error .indexError := by
  unfold getCell
  rw [List.get?_eq_none.mpr h]

theorem extractCol_err (sample : List (List String)) (i : Nat) :
    ∀ e : PyErr, extractCol sample i = .error e → e = .indexError := by
  induction sample with
  | nil => intro e h; cases h
  | cons r rs ih =>
    intro e h
    unfold extractCol at h
    cases hg : getCell r i <;> rw [hg] at h
    · injection h with h'
      exact h' ▸ getCell_err r i _ hg
    · cases he : extractCol rs i <;> rw [he] at h
      · injection h with h'
        exact h' ▸ ih _ he
      · cases h

theorem extractCol_ok_long (sample : List (List String)) (i : Nat)
    (cs : List String) (h : extractCol sample i = .ok cs) :
    ∀ r ∈ sample, i < r.length := by
  induction sample generalizing cs with
  | nil => intro r hr; cases hr
  | cons r0 rs ih =>
    intro r hr
    unfold extractCol at h
    cases hg : getCell r0 i <;> rw [hg] at h
    · cases h
    · cases he : extractCol rs i <;> rw [he] at h
      · cases h
      · rcases List.mem_cons.mp hr with rfl | hr'
        · exact getCell_ok_lt _ _ _ hg
        · exact ih _ he r hr'

theorem extractCol_ok_mem (sample : List (List String)) (i : Nat)
    (cs : List String) (h : extractCol sample i = .ok cs) :
    ∀ v ∈ cs, ∃ r ∈ sample, getCell r i = .ok v := by
  induction sample generalizing cs with
  | nil =>
    cases h
    intro v hv; cases hv
  | cons r0 rs ih =>
    unfold extractCol at h
    cases hg : getCell r0 i <;> rw [hg] at h
    · cases h
    · cases he : extractCol rs i <;> rw [he] at h
      · cases h
      · cases h
        intro v hv
        rcases List.mem_cons.mp hv with rfl | hv'
        · exact ⟨r0, List.mem_cons_self _ _, hg⟩
        · obtain ⟨r, hr, hcell⟩ := ih _ he v hv'
          exact ⟨r, List.mem_cons_of_mem _ hr, hcell⟩

theorem extractCol_short (sample : List (List String)) (i : Nat)
    (r : List String) (hr : r ∈ sample) (hl : r.length ≤ i) :
    extractCol sample i = .error .indexError := by
  induction sample with
  | nil => cases hr
  | cons r0 rs ih =>
    unfold extractCol
    rcases List.mem_cons.mp hr with rfl | hr'
    · rw [getCell_of_le _ _ hl]
    · cases hg : getCell r0 i
      · rw [getCell_err _ _ _ hg]
      · rw [ih hr']

theorem inferPairs_err (sample : List (List String)) :
    ∀ (cols : List HeaderColumn) (i : Nat) (e : PyErr),
      inferPairs sample i cols = .error e → e = .indexError := by
  intro cols
  induction cols with
  | nil => intro i e h; cases h
  | cons col cols ih =>
    intro i e h
    unfold inferPairs at h
    cases hx : extractCol sample i <;> simp only [hx] at h
    · injection h with h'
      exact h' ▸ extractCol_err sample i _ hx
    · cases hr : inferPairs sample (i + 1) cols <;> simp only [hr] at h
      · injection h with h'
        exact h' ▸ ih (i + 1) _ hr
      · by_cases ht : col.type = "date" ∨ col.type = "datetime" ∨ col.type = "time"
        · rw [if_pos ht] at h; cases h
        · rw [if_neg ht] at h; cases h

theorem inferPairs_short (sample : List (List String)) (r : List String)
    (hr : r ∈ sample) :
    ∀ (cols : List HeaderColumn) (i : Nat),
      r.length < i + cols.length → i ≤ r.length →
      inferPairs sample i cols = .error .indexError := by
  intro cols
  induction cols with
  | nil =>
    intro i h1 h2
    simp only [List.length_nil, Nat.add_zero] at h1
    omega
  | cons col cols ih =>
    intro i h1 h2
    simp only [List.length_cons] at h1
    unfold inferPairs
    cases hx : extractCol sample i
    · rw [extractCol_err sample i _ hx]
    · have hlong := extractCol_ok_long sample i _ hx r hr
      rw [ih (i + 1) (by omega) (by omega)]

theorem inferPairs_ok_spec (sample : List (List String)) :
    ∀ (cols : List HeaderColumn) (i : Nat) (p : List (String × Option String)),
      inferPairs sample i cols = .ok p →
      ∀ (j : Nat) (col : HeaderColumn), cols.get? j = some col →
        (col.type = "date" ∨ col.type = "datetime" ∨ col.type = "time") →
        ∃ cs, extractCol sample (i + j) = .ok cs ∧
          (col.name, find_dt_format cs (fmtsFor col.type)) ∈ p := by
  intro cols
  induction cols with
  | nil => intro i p h j col hj; cases hj
  | cons col0 cols ih =>
    intro i p h j col hj ht
    unfold inferPairs at h
    cases hx : extractCol sample i <;> simp only [hx] at h
    · cases h
    · cases hr : inferPairs sample (i + 1) cols <;> simp only [hr] at h
      · cases h
      · cases j with
        | zero =>
          injection hj with hj'
          subst hj'
          rw [if_pos ht] at h
          injection h with h'
          subst h'
          exact ⟨_, by rw [Nat.add_zero]; exact hx, List.mem_cons_self _ _⟩
        | succ j' =>
          have hmem := ih (i + 1) _ hr j' col hj ht
          obtain ⟨cs, hcs, hin⟩ := hmem
          refine ⟨cs, ?_, ?_⟩
          · rw [show i + (j' + 1) = (i + 1) + j' by omega]
            exact hcs
          · by_cases ht0 : col0.type = "date" ∨ col0.type = "datetime" ∨ col0.type = "time"
            · rw [if_pos ht0] at h
              injection h with h'
              subst h'
              exact List.mem_cons_of_mem _ hin
            · rw [if_neg ht0] at h
              injection h with h'
              subst h'
              exact hin

theorem inferPairs_keys (sample : List (List String)) :
    ∀ (cols : List HeaderColumn) (i : Nat) (p : List (String × Option String)),
      inferPairs sample i cols = .ok p →
      List.Sublist (p.map (fun kv => kv.1)) (cols.map (fun c => c.name)) := by
  intro cols
  induction cols with
  | nil =>
    intro i p h
    cases h
    exact List.Sublist.refl _
  | cons col0 cols ih =>
    intro i p h
    unfold inferPairs at h
    cases hx : extractCol sample i <;> simp only [hx] at h
    · cases h
    · cases hr : inferPairs sample (i + 1) cols <;> simp only [hr] at h
      · cases h
      · by_cases ht0 : col0.type = "date" ∨ col0.type = "datetime" ∨ col0.type = "time"
        · rw [if_pos ht0] at h
          injection h with h'
          subst h'
          simp only [List.map_cons]
          exact List.Sublist.cons₂ _ (ih (i + 1) _ hr)
        · rw [if_neg ht0] at h
          injection h with h'
          subst h'
          simp only [List.map_cons]
          exact List.Sublist.cons _ (ih (i + 1) _ hr)

/-! ## Lemmas: dict building (claims C4, C9) -/

theorem dictSet_of_not_mem {α : Type} (d : List (String × α)) (k : String) (v : α)
    (h : ∀ kv ∈ d, kv.1 ≠ k) : dictSet d k v = d ++ [(k, v)] := by
  unfold dictSet
  rw [if_neg]
  intro hany
  obtain ⟨kv, hkv, he⟩ := List.any_eq_true.mp hany
  exact h kv hkv (by simpa using he)

theorem foldl_dictSet {α : Type} :
    ∀ (p d : List (String × α)),
      (d.map (fun kv => kv.1) ++ p.map (fun kv => kv.1)).Nodup →
      p.foldl (fun d kv => dictSet d kv.1 kv.2) d = d ++ p := by
  intro p
  induction p with
  | nil => intro d hn; simp
  | cons kv p ih =>
    intro d hn
    simp only [List.foldl_cons]
    have hk : ∀ kv' ∈ d, kv'.1 ≠ kv.1 := by
      intro kv' hkv' he
      simp only [List.map_cons, List.nodup_append] at hn
      exact hn.2.2 (List.mem_map_of_mem _ hkv') (by simp [he])
    rw [dictSet_of_not_mem d kv.1 kv.2 hk]
    have hn' : ((d ++ [(kv.1, kv.2)]).map (fun kv => kv.1) ++
        p.map (fun kv => kv.1)).Nodup := by
      simp only [List.map_append, List.map_cons, List.map_nil, List.append_assoc,
        List.singleton_append] at hn ⊢
      exact hn
    have := ih (d ++ [(kv.1, kv.2)]) hn'
    rw [this, List.append_assoc]
    rfl

theorem dictGet_of_mem {α : Type} :
    ∀ (p : List (String × α)) (k : String) (v : α),
      (p.map (fun kv => kv.1)).Nodup → (k, v) ∈ p → dictGet p k = some v := by
  intro p
  induction p with
  | nil => intro k v _ hm; cases hm
  | cons kv p ih =>
    intro k v hn hm
    simp only [List.map_cons, List.nodup_cons] at hn
    rcases List.mem_cons.mp hm with rfl | hm'
    · unfold dictGet
      rw [List.find?_cons_of_pos _ (by simp)]
      rfl
    · have hne : kv.1 ≠ k := by
        intro he
        exact hn.1 (he ▸ List.mem_map_of_mem _ hm')
      unfold dictGet
      rw [List.find?_cons_of_neg]
      · exact ih k v hn.2 hm'
      · simp [hne]

/-! ## Lemmas: row conversion (claims C4, C8) -/

theorem mapPairs_ok_spec (f : List (String × Option String)) (row : List String) :
    ∀ (cols : List HeaderColumn) (i : Nat) (prs : List (String × Value)),
      mapPairs f row i cols = .ok prs →
      ∀ (j : Nat) (col : HeaderColumn), cols.get? j = some col →
        ∃ cell v, getCell row (i + j) = .ok cell ∧ cellValue f col cell = .ok v ∧
          prs.get? j = some (col.name, v) := by
  intro cols
  induction cols with
  | nil => intro i prs h j col hj; cases hj
  | cons col0 cols ih =>
    intro i prs h j col hj
    unfold mapPairs at h
    cases hg : getCell row i with
    | error e1 => simp only [hg] at h; cases h
    | ok cell0 =>
      simp only [hg] at h
      cases hv : cellValue f col0 cell0 with
      | error e2 => simp only [hv] at h; cases h
      | ok v0 =>
        simp only [hv] at h
        cases hrest : mapPairs f row (i + 1) cols with
        | error e3 => simp only [hrest] at h; cases h
        | ok rest =>
          simp only [hrest] at h
          injection h with h'
          subst h'
          cases j with
          | zero =>
            injection hj with hj'
            subst hj'
            exact ⟨cell0, v0, by rw [Nat.add_zero]; exact hg, hv, rfl⟩
          | succ j' =>
            obtain ⟨cell, v, hc, hcv, hp⟩ := ih (i + 1) rest hrest j' col hj
            refine ⟨cell, v, ?_, hcv, hp⟩
            rw [show i + (j' + 1) = (i + 1) + j' by omega]
            exact hc

theorem mapPairs_keys (f : List (String × Option String)) (row : List String) :
    ∀ (cols : List HeaderColumn) (i : Nat) (prs : List (String × Value)),
      mapPairs f row i cols = .ok prs →
      prs.map (fun kv => kv.1) = cols.map (fun c => c.name) := by
  intro cols
  induction cols with
  | nil =>
    intro i prs h
    cases h
    rfl
  | cons col0 cols ih =>
    intro i prs h
    unfold mapPairs at h
    cases hg : getCell row i with
    | error e1 => simp only [hg] at h; cases h
    | ok cell0 =>
      simp only [hg] at h
      cases hv : cellValue f col0 cell0 with
      | error e2 => simp only [hv] at h; cases h
      | ok v0 =>
        simp only [hv] at h
        cases hrest : mapPairs f row (i + 1) cols with
        | error e3 => simp only [hrest] at h; cases h
        | ok rest =>
          simp only [hrest] at h
          injection h with h'
          subst h'
          simp only [List.map_cons]
          rw [ih (i + 1) rest hrest]

theorem emitRows_none_all_ok (f : List (String × Option String))
    (h : List HeaderColumn) :
    ∀ rows : List (List String), (emitRows f h rows).2 = none →
      ∀ r ∈ rows, ∃ tr, buildRow f h r = .ok tr := by
  intro rows
  induction rows with
  | nil => intro _ r hr; cases hr
  | cons r0 rs ih =>
    intro hn r hr
    cases hb : buildRow f h r0 with
    | error e =>
      have h2 : (emitRows f h (r0 :: rs)).2 = some e := by
        simp only [emitRows, hb]
      rw [h2] at hn; cases hn
    | ok tr =>
      have h2 : (emitRows f h (r0 :: rs)).2 = (emitRows f h rs).2 := by
        simp only [emitRows, hb]
      rw [h2] at hn
      rcases List.mem_cons.mp hr with rfl | hr'
      · exact ⟨tr, hb⟩
      · exact ih hn r hr'

theorem emitRows_mem (f : List (String × Option String))
    (h : List HeaderColumn) :
    ∀ (rows : List (List String)) (tr : TypedRow), tr ∈ (emitRows f h rows).1 →
      ∃ r ∈ rows, buildRow f h r = .ok tr := by
  intro rows
  induction rows with
  | nil => intro tr htr; cases htr
  | cons r0 rs ih =>
    intro tr htr
    cases hb : buildRow f h r0 with
    | error e =>
      have h1 : (emitRows f h (r0 :: rs)).1 = [] := by
        simp only [emitRows, hb]
      rw [h1] at htr; cases htr
    | ok tr0 =>
      have h1 : (emitRows f h (r0 :: rs)).1 = tr0 :: (emitRows f h rs).1 := by
        simp only [emitRows, hb]
      rw [h1] at htr
      rcases List.mem_cons.mp htr with rfl | htr'
      · exact ⟨r0, List.mem_cons_self _ _, hb⟩
      · obtain ⟨r, hr, hbr⟩ := ih tr htr'
        exact ⟨r, List.mem_cons_of_mem _ hr, hbr⟩

/-! ## Lemmas: temporal cells without an inferred format (claim C4) -/

theorem fmtsFor_ne_nil (t : String) : fmtsFor t ≠ [] := by
  unfold fmtsFor
  by_cases h1 : t = "date"
  · rw [if_pos h1]; intro h; cases h
  · rw [if_neg h1]
    by_cases h2 : t = "datetime"
    · rw [if_pos h2]; intro h; cases h
    · rw [if_neg h2]; intro h; cases h

theorem find_none_has_nonnull (cs formats : List String) (hne : formats ≠ [])
    (h : find_dt_format cs formats = none) : ∃ v ∈ cs, clean_nulls v ≠ none := by
  by_contra hno
  push_neg at hno
  cases formats with
  | nil => exact hne rfl
  | cons f fs =>
    have hall : (cs.all fun v => format_ok v f) = true := by
      rw [List.all_eq_true]
      intro v hv
      exact format_ok_null v f (by simpa using hno v hv)
    rw [find_dt_format,
      List.find?_cons_of_pos (p := fun fmt => cs.all fun v => format_ok v fmt) _ hall] at h
    cases h

theorem parse_date_none_fmt (cell : String) (hc : clean_nulls cell ≠ none) :
    parse_date cell none = .error .typeError := by
  unfold parse_date
  cases hcc : clean_nulls cell
  · exact absurd hcc hc
  · rfl

theorem cellValue_temporal_err (f : List (String × Option String))
    (col : HeaderColumn) (cell : String)
    (ht : col.type = "date" ∨ col.type = "datetime" ∨ col.type = "time")
    (hfmt : dictGet f col.name = some none)
    (hc : clean_nulls cell ≠ none) :
    cellValue f col cell = .error .typeError := by
  unfold cellValue
  rcases ht with ht | ht | ht
  · rw [if_pos ht]
    simp only [hfmt]
    rw [parse_date_none_fmt cell hc]
    rfl
  · rw [ht, if_neg (by decide), if_pos rfl]
    simp only [hfmt]
    show (parse_datetime cell none).map optDt = _
    unfold parse_datetime
    rw [parse_date_none_fmt cell hc]
    rfl
  · rw [ht, if_neg (by decide), if_neg (by decide), if_pos rfl]
    simp only [hfmt]
    show (parse_time cell none).map optDt = _
    unfold parse_time
    rw [parse_date_none_fmt cell hc]
    rfl

theorem cellValue_temporal_ok_null (f : List (String × Option String))
    (col : HeaderColumn) (cell : String) (v : Value)
    (ht : col.type = "date" ∨ col.type = "datetime" ∨ col.type = "time")
    (hfmt : dictGet f col.name = some none)
    (h : cellValue f col cell = .ok v) : v = Value.vNull := by
  by_cases hc : clean_nulls cell = none
  · unfold cellValue at h
    have hpd : parse_date cell none = .ok none := by
      unfold parse_date
      rw [hc]
    rcases ht with ht | ht | ht
    · rw [if_pos ht] at h
      simp only [hfmt] at h
      rw [hpd] at h
      injection h with h'
      exact h'.symm
    · rw [ht, if_neg (by decide), if_pos rfl] at h
      simp only [hfmt] at h
      have h2 : (parse_datetime cell none).map optDt = .ok v := h
      unfold parse_datetime at h2
      rw [hpd] at h2
      injection h2 with h'
      exact h'.symm
    · rw [ht, if_neg (by decide), if_neg (by decide), if_pos rfl] at h
      simp only [hfmt] at h
      have h2 : (parse_time cell none).map optDt = .ok v := h
      unfold parse_time at h2
      rw [hpd] at h2
      injection h2 with h'
      exact h'.symm
  · rw [cellValue_temporal_err f col cell ht hfmt hc] at h
    cases h

/-- Claim C8 (amended): a raw row narrower than the header inside the
100-row inference sample makes the extraction raise IndexError before any
TypedRow is emitted — missing trailing cells are not padded with empty
strings. -/
theorem c8_short_row_error (rows : List (List String))
    (header : List HeaderColumn)
    (h : ∃ r ∈ get_sample_rows rows, r.length < header.length) :
    parse_iterator rows header = ([], some PyErr.indexError) := by
  obtain ⟨r, hr, hlen⟩ := h
  have hinf : inferPairs (get_sample_rows rows) 0 header = .error .indexError :=
    inferPairs_short (get_sample_rows rows) r hr header 0 (by omega) (by omega)
  unfold parse_iterator
  rw [hinf]

/-- Witness for C8 at a concrete input. -/
theorem c8_short_row_error_witness :
    parse_iterator [["a"]] [⟨"P", "str", "."⟩, ⟨"Q", "str", "."⟩]
      = ([], some PyErr.indexError) :=
  c8_short_row_error [["a"]] [⟨"P", "str", "."⟩, ⟨"Q", "str", "."⟩]
    ⟨["a"], by decide, by decide⟩

/-- Claim C4: when no candidate format satisfies a temporal column's sample,
the extraction surfaces an error (the emitted sequence ends with an
exception rather than guessing a fallback format), and no emitted TypedRow
carries a parsed temporal value for that column — only nulls. -/
theorem c4_no_format_found_fatal (rows : List (List String))
    (header : List HeaderColumn) (k : Nat) (col : HeaderColumn)
    (hk : header.get? k = some col)
    (ht : col.type = "date" ∨ col.type = "datetime" ∨ col.type = "time")
    (hnd : (header.map (fun c => c.name)).Nodup)
    (cs : List String)
    (hcs : extractCol (get_sample_rows rows) k = .ok cs)
    (hf : find_dt_format cs (fmtsFor col.type) = none) :
    (parse_iterator rows header).2 ≠ none ∧
    ∀ tr ∈ (parse_iterator rows header).1,
      dictGet tr col.name = some Value.vNull := by
  unfold parse_iterator
  cases hi : inferPairs (get_sample_rows rows) 0 header with
  | error e =>
    constructor
    · intro hcon; cases hcon
    · intro tr htr; cases htr
  | ok pairs =>
    obtain ⟨cs', hcs', hmem⟩ :=
      inferPairs_ok_spec (get_sample_rows rows) header 0 pairs hi k col hk ht
    rw [Nat.zero_add, hcs] at hcs'
    injection hcs' with he
    subst he
    rw [hf] at hmem
    have hkeys := inferPairs_keys (get_sample_rows rows) header 0 pairs hi
    have hnodup : (pairs.map (fun kv => kv.1)).Nodup :=
      List.Nodup.sublist hkeys hnd
    have hfold : pairs.foldl (fun d kv => dictSet d kv.1 kv.2) [] = pairs := by
      have h3 := foldl_dictSet pairs []
      simpa using h3 (by simpa using hnodup)
    have hget : dictGet (pairs.foldl (fun d kv => dictSet d kv.1 kv.2) [])
        col.name = some none := by
      rw [hfold]
      exact dictGet_of_mem pairs col.name none hnodup hmem
    constructor
    · intro hnone
      have hallok := emitRows_none_all_ok
        (pairs.foldl (fun d kv => dictSet d kv.1 kv.2) []) header
        (get_sample_rows rows ++ sampleRest rows) hnone
      obtain ⟨v, hvcs, hvnn⟩ :=
        find_none_has_nonnull cs (fmtsFor col.type) (fmtsFor_ne_nil _) hf
      obtain ⟨r, hrs, hcell⟩ := extractCol_ok_mem _ _ _ hcs v hvcs
      obtain ⟨tr, htr⟩ := hallok r (List.mem_append_left _ hrs)
      unfold buildRow at htr
      cases hmp : mapPairs (pairs.foldl (fun d kv => dictSet d kv.1 kv.2) [])
          r 0 header with
      | error e => rw [hmp] at htr; cases htr
      | ok prs =>
        obtain ⟨cell, v2, hc2, hcv2, hp2⟩ :=
          mapPairs_ok_spec _ r header 0 prs hmp k col hk
        rw [Nat.zero_add, hcell] at hc2
        injection hc2 with hc2'
        subst hc2'
        rw [cellValue_temporal_err _ col v ht hget hvnn] at hcv2
        cases hcv2
    · intro tr htr
      obtain ⟨r, hrs, hbr⟩ := emitRows_mem _ header _ tr htr
      unfold buildRow at hbr
      cases hmp : mapPairs (pairs.foldl (fun d kv => dictSet d kv.1 kv.2) [])
          r 0 header with
      | error e => rw [hmp] at hbr; cases hbr
      | ok prs =>
        rw [hmp] at hbr
        injection hbr with hbr'
        obtain ⟨cell, v2, hc2, hcv2, hp2⟩ :=
          mapPairs_ok_spec _ r header 0 prs hmp k col hk
        have hv2 : v2 = Value.vNull :=
          cellValue_temporal_ok_null _ col cell v2 ht hget hcv2
        subst hv2
        have hpkeys := mapPairs_keys _ r header 0 prs hmp
        have hprnodup : (prs.map (fun kv => kv.1)).Nodup := by
          rw [hpkeys]; exact hnd
        have hprfold : prs.foldl (fun d kv => dictSet d kv.1 kv.2) [] = prs := by
          have h3 := foldl_dictSet prs []
          simpa using h3 (by simpa using hprnodup)
        rw [← hbr']
        show dictGet (prs.foldl (fun d kv => dictSet d kv.1 kv.2) []) col.name
          = some Value.vNull
        rw [hprfold]
        exact dictGet_of_mem prs col.name Value.vNull hprnodup (List.get?_mem hp2)

/-- Witness for C4: one date column whose only sample value "zzz" matches no
candidate; the run ends in an error and the lone doomed row is never
emitted with a guessed date. -/
theorem c4_no_format_found_fatal_witness :
    (parse_iterator [["zzz"]] [⟨"D", "date", "."⟩]).2 ≠ none :=
  (c4_no_format_found_fatal [["zzz"]] [⟨"D", "date", "."⟩] 0 ⟨"D", "date", "."⟩
    (by rfl) (Or.inl rfl) (by decide) ["zzz"] (by rfl) (by rfl)).1

/-- Claim C9 (amended): the code performs no schema validation and raises no
SchemaMismatch: a header narrower than the rectangle silently ignores the
trailing columns and emits TypedRows; a column type outside
number/date/datetime/time is silently handled by the str fall-through; a
header wider than a row fails with IndexError (a different failure, though
it also precedes any emission). -/
theorem c9_no_schema_validation :
    (parse_iterator (csv.table_iterator 0 0 0 1 [] [["a", "b"]])
        [⟨"P", "str", "."⟩] = ([[("P", Value.vStr "a")]], none)) ∧
    (∀ s t : String, t ∉ (["date", "datetime", "time", "number"] : List String) →
      parse_iterator [[s]] [⟨"P", t, "."⟩] = ([[("P", Value.vStr s)]], none)) ∧
    (parse_iterator [["a"]] [⟨"P", "str", "."⟩, ⟨"Q", "str", "."⟩]
        = ([], some PyErr.indexError)) := by
  refine ⟨by rfl, ?_, by rfl⟩
  intro s t hmem
  simp only [List.mem_cons, List.not_mem_nil, or_false, not_or] at hmem
  obtain ⟨h1, h2, h3, h4⟩ := hmem
  have hnotemp : ¬(t = "date" ∨ t = "datetime" ∨ t = "time") := by
    intro hor
    rcases hor with h | h | h
    exacts [h1 h, h2 h, h3 h]
  have hinf2 : inferPairs (get_sample_rows [[s]]) 0 [⟨"P", t, "."⟩] =
      if t = "date" ∨ t = "datetime" ∨ t = "time" then
        .ok [("P", find_dt_format [s] (fmtsFor t))]
      else .ok [] := rfl
  rw [if_neg hnotemp] at hinf2
  have hcv : cellValue [] ⟨"P", t, "."⟩ s = .ok (.vStr s) := by
    unfold cellValue
    rw [if_neg h1, if_neg h2, if_neg h3, if_neg h4]
  have hmp : mapPairs [] [s] 0 [⟨"P", t, "."⟩] = .ok [("P", .vStr s)] := by
    have e0 : mapPairs ([] : List (String × Option String)) [s] 0 [⟨"P", t, "."⟩] =
        match cellValue [] ⟨"P", t, "."⟩ s with
        | .error e => .error e
        | .ok v => .ok [("P", v)] := rfl
    rw [e0, hcv]
  have hbr : buildRow [] [⟨"P", t, "."⟩] [s] = .ok [("P", .vStr s)] := by
    unfold buildRow
    rw [hmp]
    rfl
  have hem : emitRows [] [⟨"P", t, "."⟩]
      (get_sample_rows [[s]] ++ sampleRest [[s]]) =
      ([[("P", Value.vStr s)]], none) := by
    show emitRows [] [⟨"P", t, "."⟩] [[s]] = _
    unfold emitRows
    rw [hbr]
    rfl
  unfold parse_iterator
  rw [hinf2]
  exact hem

/-- Witness for C9: an unrecognized type string "foo" over a null-vocabulary
cell is treated exactly like str — emitted verbatim, no SchemaMismatch. -/
theorem c9_no_schema_validation_witness :
    parse_iterator [["N/A"]] [⟨"P", "foo", "."⟩]
      = ([[("P", Value.vStr "N/A")]], none) :=
  c9_no_schema_validation.2.1 "N/A" "foo" (by decide)

/-- Counterexample for C9 as stated: header length 1 differs from the
rectangle width 2 (columns 0..1 of a 2-cell row), yet the extraction
emits a TypedRow and finishes without any error. -/
theorem c9_counterexample :
    ([⟨"P", "str", "."⟩] : List HeaderColumn).length ≠ 1 + 1 - 0 ∧
    parse_iterator (csv.table_iterator 0 0 0 1 [] [["a", "b"]])
        [⟨"P", "str", "."⟩] = ([[("P", Value.vStr "a")]], none) :=
  ⟨by decide, by rfl⟩

/-- Witness for C7 at a concrete cell with mixed casing. -/
theorem c7_str_passthrough_witness :
    parse_iterator [["Hello World"]] [⟨"P", "str", "."⟩]
      = ([[("P", Value.vStr "Hello World")]], none) :=
  c7_str_passthrough "Hello World"
